import Mathlib

/-
Verification of the stonkystonkster.sol ledger-feed system.

This file gives a shallow embedding of the core pure logic of the
repository: the like/tip fee split of `publishLike`
(src/components/registry.ts, src/components/discover.ts), the tally
aggregation of the feed builder (the `tally` scan), the RPC endpoint
pool (`pickConn` / `backoff`), the memo payload codec
(`encodePayload` / `tryParsePayload`), the registry manifest resolver
(`loadLatestRegistryManifest` / `getActiveRegistries`), the serverless
feed paginator (`buildPage` in netlify/functions/fetchMemes.ts), and
the confirmation poller (`confirmSignatureSmart`).

JavaScript numbers are modelled as `Nat` (all quantities involved are
nonnegative integers well below 2^53, so floating point is exact);
`Math.floor` of a quotient becomes `Nat` division, `Math.max(0, a - b)`
becomes truncated `Nat` subtraction.  JavaScript strings are Lean
`String`s with `.slice(0, n)` modelled as taking the first `n`
characters.  `JSON.parse` results are modelled by the `JVal` tree;
code that may throw is modelled with `Option` / `Except`.
-/

namespace Stonky

/-! ## Like fee split (`publishLike`) -/

/-- Configured like fee in basis points (`LIKE_FEE_BPS`), default 1000 = 10%. -/
def LIKE_FEE_BPS : Nat := 1000

/-- `publishLike`: `total = Math.max(1, Math.floor(opts.lamports))`. -/
def likeTotal (lamports : Nat) : Nat := max 1 lamports

/-- `publishLike`: `fee = Math.max(1, Math.floor((total * LIKE_FEE_BPS) / 10_000))`. -/
def likeFee (feeBps total : Nat) : Nat := max 1 (total * feeBps / 10000)

/-- `publishLike`: `toCreator = Math.max(0, total - fee)`; truncated `Nat`
subtraction is exactly `max 0` of the integer difference. -/
def toCreator (feeBps total : Nat) : Nat := total - likeFee feeBps total

/-- Recipients of the transfer instructions built by `publishLike`. -/
inductive Recipient where
  | registry
  | owner
  | creator
deriving DecidableEq, Repr

/-- One `SystemProgram.transfer` instruction; `dest` models the source's
`toPubkey` field (`to` is reserved in Lean). -/
structure Transfer where
  dest : Recipient
  lamports : Nat
deriving DecidableEq, Repr

/-- The ordered transfer instructions `publishLike` adds to the transaction:
`ixPing` (0 lamports to the registry), `ixFee` (fee to the owner), and
`ixTip` (the creator tip) only when `toCreator > 0`. -/
def publishLikeTransfers (feeBps lamports : Nat) : List Transfer :=
  let total := likeTotal lamports
  let fee := likeFee feeBps total
  let tip := toCreator feeBps total
  [⟨.registry, 0⟩, ⟨.owner, fee⟩] ++ (if 0 < tip then [⟨.creator, tip⟩] else [])

/-! ## Tally aggregation (feed builder, step 4)

The feed builder scans all stored page items and accumulates, per
content id (`cid`), a like count and a tip lamport sum:
`cur.likes += 1; if (it.tipLamports) cur.tipLamports += it.tipLamports`.
An item only counts when `it.type === 'like'` and `it.cid` is truthy. -/

/-- A stored feed item, as far as the tally scan inspects it.  `cid = none`
models an absent field; `some ""` is falsy in JavaScript just like an
absent field.  `tipLamports = 0` models both an absent and a zero field
(both falsy, and adding 0 is the identity). -/
structure FeedLikeItem where
  type : String
  cid : Option String
  tipLamports : Nat
deriving DecidableEq, Repr

/-- A per-content-id tally entry `{likes, tipLamports}`. -/
structure TallyEntry where
  likes : Nat
  tipLamports : Nat
deriving DecidableEq, Repr

/-- JavaScript truthiness of the `it.cid` guard: present and nonempty. -/
def cidTruthy : Option String → Bool
  | none => false
  | some c => c ≠ ""

/-- `Map.set` on an association list: replace in place if the key exists,
append at the end otherwise (JavaScript `Map` insertion order). -/
def setEntry (m : List (String × TallyEntry)) (k : String) (v : TallyEntry) :
    List (String × TallyEntry) :=
  match m with
  | [] => [(k, v)]
  | (k', v') :: rest => if k' = k then (k, v) :: rest else (k', v') :: setEntry rest k v

/-- One step of the tally scan over a stored item. -/
def tallyStep (m : List (String × TallyEntry)) (it : FeedLikeItem) :
    List (String × TallyEntry) :=
  if it.type == "like" && cidTruthy it.cid then
    match it.cid with
    | some c =>
      let cur := (m.lookup c).getD ⟨0, 0⟩
      let cur : TallyEntry := { cur with likes := cur.likes + 1 }
      let cur : TallyEntry :=
        if it.tipLamports ≠ 0 then { cur with tipLamports := cur.tipLamports + it.tipLamports }
        else cur
      setEntry m c cur
    | none => m
  else m

/-- The tally map built by scanning all stored items. -/
def tally (items : List FeedLikeItem) : List (String × TallyEntry) :=
  items.foldl tallyStep []

/-- The item the feed builder stores for a like of content `cid` with gross
amount `amt`: the builder records, as `tipLamports`, the balance increase
of the creator's account, which for a like written by `publishLike` is
exactly the `toCreator` transfer (gross minus fee). -/
def likeItemFor (cid : String) (amt : Nat) : FeedLikeItem :=
  ⟨"like", some cid, toCreator LIKE_FEE_BPS (likeTotal amt)⟩

/-! ## RPC endpoint pool (`pickConn` / `backoff`) -/

/-- A pool endpoint `{url, cooldownUntil, failScore}`; times are epoch
milliseconds. -/
structure Ep where
  url : String
  cooldownUntil : Nat
  failScore : Nat
deriving DecidableEq, Repr

/-- The penalty `pickConn` applies when a probe fails:
`ep.failScore += 1; ep.cooldownUntil = now + Math.min(30_000, 3_000 * ep.failScore)`
(the incremented score is used). -/
def probeFail (now : Nat) (e : Ep) : Ep :=
  { e with failScore := e.failScore + 1,
           cooldownUntil := now + min 30000 (3000 * (e.failScore + 1)) }

/-- `backoff`'s base delay table `[500, 1000, 2000, 4000, 6000][Math.min(attempt, 4)]`. -/
def backoffBase (attempt : Nat) : Nat :=
  [500, 1000, 2000, 4000, 6000].getD (min attempt 4) 0

/-- The penalty `backoff(ep, attempt)` applies on a rate-limited call:
`ep.failScore += 1; ep.cooldownUntil = Date.now() + Math.min(60_000, base * 3)`. -/
def backoffPenalize (now attempt : Nat) (e : Ep) : Ep :=
  { e with failScore := e.failScore + 1,
           cooldownUntil := now + min 60000 (backoffBase attempt * 3) }

/-- The sort comparator of `pickConn`:
`(a.cooldownUntil - b.cooldownUntil) || (a.failScore - b.failScore)` ascending. -/
def epLe (a b : Ep) : Bool :=
  decide (a.cooldownUntil < b.cooldownUntil) ||
    (a.cooldownUntil == b.cooldownUntil && decide (a.failScore ≤ b.failScore))

/-- Stable insertion (earlier elements stay first on ties), used to model the
stable `Array.prototype.sort` of the pool. -/
def insertEp (r : Ep) : List Ep → List Ep
  | [] => [r]
  | h :: t => if epLe r h then r :: h :: t else h :: insertEp r t

/-- Stable sort of the pool by `(cooldownUntil, failScore)` ascending. -/
def sortPool (l : List Ep) : List Ep := l.foldr insertEp []

/-- The probe loop of `pickConn` over the sorted candidate list: skip
endpoints still in cooldown, probe the rest in order (`probe` is the outcome
of the `getLatestBlockhash` health check on a url), penalize failures in
place, and stop at the first success.  Returns the chosen url (`none`
models the thrown "No CORS-friendly RPC available") together with the pool
after the in-place mutations. -/
def pickLoop (probe : String → Bool) (now : Nat) : List Ep → Option String × List Ep
  | [] => (none, [])
  | e :: rest =>
    if now < e.cooldownUntil then
      let r := pickLoop probe now rest
      (r.1, e :: r.2)
    else if probe e.url then
      (some e.url, e :: rest)
    else
      let r := pickLoop probe now rest
      (r.1, probeFail now e :: r.2)

/-- `pickConn`: return the cached connection if its endpoint's cooldown has
passed, otherwise run the probe loop over the cooldown-sorted pool. -/
def pickConn (probe : String → Bool) (now : Nat) (cached : Option String)
    (pool : List Ep) : Option String × List Ep :=
  match cached with
  | some cu =>
    match pool.find? (fun p => p.url == cu) with
    | some ep => if ep.cooldownUntil ≤ now then (some cu, pool)
                 else pickLoop probe now (sortPool pool)
    | none => pickLoop probe now (sortPool pool)
  | none => pickLoop probe now (sortPool pool)

/-! ## Cooldown monotonicity across failures -/

/-- A failure penalization event on one endpoint: a probe failure at time
`t`, or a rate-limit backoff at time `t` with attempt counter `a`. -/
inductive FailEvent where
  | probe (t : Nat)
  | back (t : Nat) (a : Nat)
deriving DecidableEq, Repr

/-- The wall-clock time at which a failure event happens. -/
def FailEvent.time : FailEvent → Nat
  | .probe t => t
  | .back t _ => t

/-- Apply one failure penalization to an endpoint. -/
def applyFail (e : Ep) : FailEvent → Ep
  | .probe t => probeFail t e
  | .back t a => backoffPenalize t a e

/-- A failure trace is admissible when each failure happens at a time at
which the endpoint was eligible again (`cooldownUntil ≤ now`); both call
sites of the penalties (`pickConn`'s loop and the retry paths that call
`backoff` on the endpoint currently in use) only reach an endpoint after
its cooldown has passed. -/
def Admissible : Ep → List FailEvent → Prop
  | _, [] => True
  | e, ev :: rest => e.cooldownUntil ≤ ev.time ∧ Admissible (applyFail e ev) rest

/-- The endpoint's `cooldownUntil` value before and after each failure of a
trace. -/
def cooldownTrace (e : Ep) : List FailEvent → List Nat
  | [] => [e.cooldownUntil]
  | ev :: rest => e.cooldownUntil :: cooldownTrace (applyFail e ev) rest

/-! ## Memo payload codec (`encodePayload` / `tryParsePayload`)

The memo carries `JSON.stringify` of the payload object and is read back
with `JSON.parse`.  `JSON.stringify ∘ JSON.parse` is the identity on JSON
trees, so the codec is modelled directly on a JSON tree type `JVal`;
object fields keep insertion order like JavaScript objects, and an
`undefined`-valued field (`wm: undefined`) is omitted by `JSON.stringify`,
so it simply has no entry in the field list. -/

/-- A parsed JSON value. -/
inductive JVal where
  | jnull
  | jbool (b : Bool)
  | jnum (n : Int)
  | jstr (s : String)
  | jarr (xs : List JVal)
  | jobj (fields : List (String × JVal))
deriving Repr

/-- JavaScript `s.slice(0, n)`: the first `n` characters of `s`. -/
def jsSlice (s : String) (n : Nat) : String := ⟨s.data.take n⟩

/-- A Publish event as the writers build it (`{v:1, t:"api", k, l, wm?, c}`);
the constant `v`/`t` fields are implicit, `wm = none` models an
`undefined` watermark. -/
structure PublishPayload where
  k : String
  l : List String
  wm : Option String
  c : String
deriving DecidableEq, Repr

/-- The JSON form of a payload object as built by `publishMemeApi`
(keys in insertion order `v, t, k, l, wm, c`; an `undefined` `wm` is
dropped by `JSON.stringify`). -/
def toJson (p : PublishPayload) : JVal :=
  .jobj ([("v", .jnum 1), ("t", .jstr "api"), ("k", .jstr p.k),
          ("l", .jarr (p.l.map .jstr))]
    ++ (match p.wm with | none => [] | some w => [("wm", .jstr w)])
    ++ [("c", .jstr p.c)])

/-- The per-field truncation `encodePayload` applies:
`k`/`wm`/`c` to 64 characters, each text line to 140 characters, at most 6
lines, and `wm` defaulted to `""` when absent (`p.wm || ""`). -/
def truncatePayload (p : PublishPayload) : PublishPayload :=
  { k := jsSlice p.k 64,
    l := (p.l.map (fun s => jsSlice s 140)).take 6,
    wm := some (jsSlice (p.wm.getD "") 64),
    c := jsSlice p.c 64 }

/-- `encodePayload`: the canonical compact JSON object with per-field
truncation (`k.slice(0,64)`, lines mapped through `slice(0,140)` then
`slice(0,6)`, `(wm || "").slice(0,64)`, `c.slice(0,64)`). -/
def encodePayload (p : PublishPayload) : JVal :=
  .jobj [("v", .jnum 1), ("t", .jstr "api"),
         ("k", .jstr (jsSlice p.k 64)),
         ("l", .jarr (((p.l.map (fun s => jsSlice s 140)).take 6).map .jstr)),
         ("wm", .jstr (jsSlice (p.wm.getD "") 64)),
         ("c", .jstr (jsSlice p.c 64))]

/-- JavaScript property access `j.key` on a parsed JSON value: a field of an
object, `undefined` (`none`) otherwise. -/
def jsField : JVal → String → Option JVal
  | .jobj fs, k => fs.lookup k
  | _, _ => none

/-- `j?.v === 1`. -/
def fieldIsOne : Option JVal → Bool
  | some (.jnum 1) => true
  | _ => false

/-- `j?.t === "api"`. -/
def fieldIsApi : Option JVal → Bool
  | some (.jstr s) => s == "api"
  | _ => false

/-- `typeof j.k === "string"`. -/
def fieldIsString : Option JVal → Bool
  | some (.jstr _) => true
  | _ => false

/-- `Array.isArray(j.l)`. -/
def fieldIsArray : Option JVal → Bool
  | some (.jarr _) => true
  | _ => false

/-- The schema validation of `tryParsePayload`:
`j?.v === 1 && j?.t === "api" && typeof j.k === "string" && Array.isArray(j.l)`. -/
def isValidPublish (j : JVal) : Bool :=
  fieldIsOne (jsField j "v") && fieldIsApi (jsField j "t") &&
    fieldIsString (jsField j "k") && fieldIsArray (jsField j "l")

/-- `tryParsePayload` after `JSON.parse`: `none` models both a parse
exception (caught) and a failed validation; the raw parsed value is
returned unchanged when valid. -/
def tryParsePayloadJ (parsed : Option JVal) : Option JVal :=
  match parsed with
  | none => none
  | some j => if isValidPublish j then some j else none

/-- `tryParsePayload` itself, parameterized by the platform's `JSON.parse`
(`none` models a thrown parse error, absorbed by the `try`/`catch`); the
function is total, so decoding never throws. -/
def tryParsePayload (jsonParse : String → Option JVal) (s : String) : Option JVal :=
  tryParsePayloadJ (jsonParse s)

/-- The field-length caps the spec states for Publish events: key,
watermark and creator at most 64 characters, at most 6 text lines of at
most 140 characters each. -/
def withinCaps (p : PublishPayload) : Bool :=
  decide (p.k.length ≤ 64) && decide (p.l.length ≤ 6) &&
    p.l.all (fun s => decide (s.length ≤ 140)) &&
    decide ((p.wm.getD "").length ≤ 64) && decide (p.c.length ≤ 64)

/-- The number of fields of a JSON object (a discriminating observation used
to separate unequal JSON values). -/
def objArity : JVal → Nat
  | .jobj fs => fs.length
  | _ => 0

/-! ## Registry manifest resolver
(`loadLatestRegistryManifest` / `getActiveRegistries`)

The resolver scans the owner account's recent bounded history
(`getSignaturesForAddress(OWNER_PK, {limit: 100})`); each fetched
transaction is modelled by the data the resolver inspects: the
`JSON.parse` result of its extracted memo (`none` when extraction or
parsing failed) and its `blockTime` (`Number(tx.blockTime || 0)`). -/

/-- One scanned owner transaction as the resolver sees it. -/
structure TxView where
  memoJson : Option JVal
  blockTime : Nat
deriving Repr

/-- `obj.tag === MANIFEST_TAG` (false when `tag` is absent or not a string). -/
def hasTag (tag : String) (j : JVal) : Bool :=
  match jsField j "tag" with
  | some (.jstr s) => s == tag
  | _ => false

/-- `obj.registries` when it is an array, else `none` (`Array.isArray`). -/
def jsRegistries (j : JVal) : Option (List JVal) :=
  match jsField j "registries" with
  | some (.jarr xs) => some xs
  | _ => none

/-- The manifest filter of `loadLatestRegistryManifest`: matching tag and a
non-empty `registries` array. -/
def isManifest (tag : String) (j : JVal) : Bool :=
  hasTag tag j &&
    (match jsRegistries j with
     | some (_ :: _) => true
     | _ => false)

/-- One step of the scan: keep the candidate with the strictly larger
`blockTime` (`if (!latest || ts > latest.ts) latest = {ts, m: obj}`). -/
def manifestStep (tag : String) (latest : Option (Nat × JVal)) (otx : Option TxView) :
    Option (Nat × JVal) :=
  match otx with
  | none => latest
  | some tx =>
    match tx.memoJson with
    | none => latest
    | some obj =>
      if isManifest tag obj then
        match latest with
        | none => some (tx.blockTime, obj)
        | some (bts, m) => if bts < tx.blockTime then some (tx.blockTime, obj) else some (bts, m)
      else latest

/-- `loadLatestRegistryManifest`: the newest valid manifest among the
scanned transactions, or `none`. -/
def loadLatestRegistryManifest (tag : String) (txs : List (Option TxView)) : Option JVal :=
  (txs.foldl (manifestStep tag) none).map Prod.snd

/-- `MAX_REGISTRIES = Math.max(1, Math.min(8, Number(CONFIG.MAX_REGISTRIES || 4)))`. -/
def MAX_REGISTRIES (cfg : Nat) : Nat := max 1 (min 8 cfg)

/-- `getActiveRegistries` after the manifest scan: parse each manifest
registry entry as a public key (`validPk` models `new PublicKey`
succeeding; non-string entries always throw and are skipped), fall back to
the configured registry when nothing parsed, and cap with
`slice(0, MAX_REGISTRIES)`.  No deduplication is performed here. -/
def getActiveRegistries (validPk : String → Bool) (fallback : String) (maxRegs : Nat)
    (manifest : Option JVal) : List String :=
  let list :=
    match manifest with
    | some m =>
      ((jsRegistries m).getD []).filterMap
        (fun r : JVal =>
          match r with
          | .jstr s => if validPk s then some s else none
          | _ => none)
    | none => []
  (if list.isEmpty then [fallback] else list).take maxRegs

/-- The JSON object `publishRegistryManifest` writes
(`{tag, owner, registries, updatedTs, version}`). -/
def manifestJson (tag owner : String) (regs : List JVal) (ts : Int) : JVal :=
  .jobj [("tag", .jstr tag), ("owner", .jstr owner), ("registries", .jarr regs),
         ("updatedTs", .jnum ts), ("version", .jnum 1)]

/-! ## Confirmation poller (`confirmSignatureSmart`)

The poller makes at most 6 attempts; each attempt asks `pickConn` for a
connection (which may throw when the whole pool is cooling down — the only
exception that can escape), skips endpoints already tried, and queries the
signature status.  "confirmed"/"finalized" ends the poll; any other
response or error (rate-limit, timeout, …) sleeps and continues.  The pool
bookkeeping done on errors does not affect the poller's result and is
subsumed by quantifying over arbitrary per-attempt environments. -/

/-- The outcome of one status query, as the poller classifies it. -/
inductive SigStatus where
  | confirmedStatus
  | finalizedStatus
  | pending
  | rateLimited
  | otherErr
deriving DecidableEq, Repr

/-- What the `i`-th loop iteration observes: the endpoint `pickConn`
returned (`none` models `pickConn` throwing) and the status query outcome. -/
structure AttemptEnv where
  pick : Option String
  status : SigStatus
deriving Repr

/-- The poller's terminal states. -/
inductive ConfirmOutcome where
  | confirmedOut
  | exhausted
deriving DecidableEq, Repr

/-- The poll loop `while (attempts++ < 6)`, with the set of endpoints tried
in the current run; `Except.error` models an exception escaping the loop
(only `pickConn` can throw). -/
def confirmGo (env : Nat → AttemptEnv) : Nat → Nat → List String →
    Except String ConfirmOutcome
  | _, 0, _ => .ok .exhausted
  | idx, r + 1, tried =>
    match (env idx).pick with
    | none => .error "No CORS-friendly RPC available"
    | some ep =>
      if tried.contains ep then confirmGo env (idx + 1) r tried
      else
        match (env idx).status with
        | .confirmedStatus => .ok .confirmedOut
        | .finalizedStatus => .ok .confirmedOut
        | _ => confirmGo env (idx + 1) r (ep :: tried)

/-- `confirmSignatureSmart`: up to 6 attempts starting with an empty
tried-set. -/
def confirmSignatureSmart (env : Nat → AttemptEnv) : Except String ConfirmOutcome :=
  confirmGo env 1 6 []

/-- The tail of `publishMemeApi` after submission:
`try { await confirmSignatureSmart(sig); } catch {} ... return sig;` —
every confirmation outcome, including a thrown error, yields the
submission signature. -/
def publishMemeApiReturn (sig : String) (env : Nat → AttemptEnv) : String :=
  match confirmSignatureSmart env with
  | .ok _ => sig
  | .error _ => sig

/-- The identical tail of `publishLike` after submission. -/
def publishLikeReturn (sig : String) (env : Nat → AttemptEnv) : String :=
  match confirmSignatureSmart env with
  | .ok _ => sig
  | .error _ => sig

/-! ## Serverless feed paginator (`buildPage`)

`buildPage` runs with a single registry (`registries = [REGISTRY_FALLBACK]`),
so its per-registry cursor map degenerates to one optional signature.  The
registry's transaction history is modelled as the full signature list in
the gateway's order (newest first, ledger slots strictly decreasing), and
`getSignaturesForAddress(r, {before, limit})` returns the window of up to
`limit` entries strictly after `before` in that order. -/

/-- One history entry as the paginator sees it: signature and slot. -/
structure SigInfo where
  sig : String
  slot : Nat
deriving DecidableEq, Repr

/-- The gateway's `getSignaturesForAddress`: the newest `limit` entries, or
the `limit` entries strictly after `before` when given. -/
def getSignaturesForAddress (history : List SigInfo) (before : Option String)
    (limit : Nat) : List SigInfo :=
  match before with
  | none => history.take limit
  | some s => ((history.dropWhile (fun x => x.sig != s)).drop 1).take limit

/-- Stable insertion for the newest-first sort `(a, b) => b.slot - a.slot`:
an element is placed after every earlier element with a slot at least as
large (JavaScript `sort` is stable). -/
def insertBySlot (r : SigInfo) : List SigInfo → List SigInfo
  | [] => [r]
  | h :: t => if r.slot < h.slot then h :: insertBySlot r t else r :: h :: t

/-- Stable sort by slot, descending (`merged.sort((a, b) => b.slot - a.slot)`). -/
def sortBySlotDesc (l : List SigInfo) : List SigInfo := l.foldr insertBySlot []

/-- The dedupe-by-signature loop (`if (seen.has(row.sig)) continue`). -/
def dedupSigsGo (seen : List String) : List SigInfo → List SigInfo
  | [] => []
  | x :: xs =>
    if seen.contains x.sig then dedupSigsGo seen xs
    else x :: dedupSigsGo (x.sig :: seen) xs

/-- Dedupe by signature, keeping first occurrences. -/
def dedupSigs (l : List SigInfo) : List SigInfo := dedupSigsGo [] l

/-- The paginator's item filter on a decoded memo:
`m?.t === 'api' && typeof m.k === 'string' && Array.isArray(m.l)`
(`none` models a failed fetch, a missing memo or a `JSON.parse` failure). -/
def isApiMemo (m : Option JVal) : Bool :=
  match m with
  | some j =>
    fieldIsApi (jsField j "t") && fieldIsString (jsField j "k") &&
      fieldIsArray (jsField j "l")
  | none => false

/-- A feed page: the kept rows (newest first) and the next cursor. -/
structure Page where
  items : List SigInfo
  nextCursor : Option String
deriving Repr

/-- `buildPage(limit, cursor)`: fetch up to `max(4, ceil(limit/1))`
signatures after the cursor, sort newest-first, dedupe, keep the top
`limit`, decode each row (`txMemo` gives the parsed memo of a signature),
keep the rows that decode to a Publish event, and advance the cursor to
the last signature considered — even when its transaction decoded to
nothing.  An empty signature window returns the cursor unchanged. -/
def buildPage (history : List SigInfo) (txMemo : String → Option JVal)
    (limit : Nat) (cursor : Option String) : Page :=
  let perReg := max 4 limit
  let merged := getSignaturesForAddress history cursor perReg
  if merged.isEmpty then ⟨[], cursor⟩
  else
    let selected := (dedupSigs (sortBySlotDesc merged)).take limit
    let items := sortBySlotDesc (selected.filter (fun r => isApiMemo (txMemo r.sig)))
    let nextCursor :=
      match selected.getLast? with
      | some r => some r.sig
      | none => cursor
    ⟨items, nextCursor⟩

/-! ## Serverless feed limits

`fetchMemes.ts` (50-variant):
`limit = Math.max(1, Math.min(50, Number(q.limit || "12")))` and
`items = merged.slice(0, limit)`.
The other handler (32-variant):
`limit = Math.max(1, Math.min(32, parseInt(q.limit || "12", 10) || 12))`.
`Number`/`parseInt` are modelled on nonnegative decimal integer literals
(the only well-formed inputs); any other non-empty string is `NaN`
(`none`).  `Math.min`/`Math.max` propagate `NaN`, and `slice(0, NaN)` is
the empty slice. -/

/-- The numeric value of a digit string (most significant first). -/
def natOfDigits (l : List Char) : Nat :=
  l.foldl (fun acc c => acc * 10 + (c.toNat - 48)) 0

/-- JavaScript `Number(s)` on integer literals: the value when `s` is a
non-empty digit string, `NaN` (`none`) otherwise. -/
def jsToNumber (s : String) : Option Nat :=
  if !s.data.isEmpty && s.data.all Char.isDigit then some (natOfDigits s.data)
  else none

/-- JavaScript `parseInt(s, 10)`: the value of the leading digit span,
`NaN` (`none`) when there is none. -/
def parseIntJs (s : String) : Option Nat :=
  let ds := s.data.takeWhile Char.isDigit
  if ds.isEmpty then none else some (natOfDigits ds)

/-- The effective limit of the 50-variant handler; `q = none` models an
absent query parameter, and `none` in the result models `NaN`
(`q.limit || "12"` substitutes the default only for a missing or empty
string). -/
def effLimit50 (q : Option String) : Option Nat :=
  let s := match q with
    | none => "12"
    | some s => if s = "" then "12" else s
  (jsToNumber s).map (fun n => max 1 (min 50 n))

/-- The 50-variant response items: `merged.slice(0, limit)`, where a `NaN`
limit slices to the empty list. -/
def fetchMemesItems (merged : List String) (q : Option String) : List String :=
  match effLimit50 q with
  | none => []
  | some n => merged.take n

/-- The effective limit of the 32-variant handler
(`parseInt(q.limit || "12", 10) || 12`: both `NaN` and `0` fall back to the
default 12). -/
def effLimit32 (q : Option String) : Nat :=
  let s := match q with
    | none => "12"
    | some s => if s = "" then "12" else s
  let n := match parseIntJs s with
    | none => 12
    | some 0 => 12
    | some m => m
  max 1 (min 32 n)

end Stonky

namespace Stonky

/-- C1: three Like events for content id "X" with gross amounts
[5000, 5000, 50000] under the configured 10% fee (floor 1 lamport)
tally to a like count of 3 and a tip sum of 54000 = 4500 + 4500 + 45000,
i.e. 90% of each amount, floored. -/
theorem c1_tally_three_likes :
    (tally [likeItemFor "X" 5000, likeItemFor "X" 5000, likeItemFor "X" 50000]).lookup "X"
      = some ⟨3, 54000⟩ := by
  decide

/-- C2: for every like write with total amount `T ≥ 1` and fee basis points
`feeBps`, the transaction built by `publishLike` transfers exactly
`max 1 (T * feeBps / 10000)` lamports to the owner, transfers
`T - fee` (truncated at 0) lamports to the creator in total, and contains
a creator transfer instruction iff that amount is positive. -/
theorem c2_publishLike_fee_split (feeBps T : Nat) (hT : 1 ≤ T) :
    ((publishLikeTransfers feeBps T).filter (fun tr => tr.dest == Recipient.owner)).map
        Transfer.lamports = [max 1 (T * feeBps / 10000)]
    ∧ (((publishLikeTransfers feeBps T).filter (fun tr => tr.dest == Recipient.creator)).map
        Transfer.lamports).sum = T - max 1 (T * feeBps / 10000)
    ∧ ((⟨Recipient.creator, T - max 1 (T * feeBps / 10000)⟩ : Transfer)
        ∈ publishLikeTransfers feeBps T ↔ 0 < T - max 1 (T * feeBps / 10000)) := by
  have htotal : likeTotal T = T := by
    simp [likeTotal, Nat.max_eq_right hT]
  have hexp : publishLikeTransfers feeBps T =
      [⟨.registry, 0⟩, ⟨.owner, likeFee feeBps T⟩] ++
        (if 0 < toCreator feeBps T then [⟨.creator, toCreator feeBps T⟩] else []) := by
    simp only [publishLikeTransfers, htotal]
  by_cases h : 0 < toCreator feeBps T
  · rw [hexp, if_pos h]
    simp only [toCreator, likeFee] at h
    refine ⟨rfl, rfl, ?_⟩
    simp only [List.mem_cons, List.mem_append, List.mem_singleton, List.not_mem_nil,
      Transfer.mk.injEq, toCreator, likeFee]
    constructor
    · intro _; exact h
    · intro _; simp
  · have h0 : toCreator feeBps T = 0 := Nat.eq_zero_of_not_pos h
    rw [hexp, if_neg h]
    simp only [toCreator, likeFee] at h0
    refine ⟨rfl, ?_, ?_⟩
    · simpa using h0.symm
    · simp only [List.append_nil, List.mem_cons, List.not_mem_nil,
        Transfer.mk.injEq, toCreator, likeFee]
      constructor
      · rintro ((⟨h1, _⟩ | ⟨h1, _⟩) | h1)
        all_goals simp_all
      · intro hpos; omega

/-- Witness for C2 at `T = 5000`, `feeBps = 1000`. -/
theorem c2_witness :
    (1 ≤ 5000
    ∧ ((publishLikeTransfers 1000 5000).filter (fun tr => tr.dest == Recipient.owner)).map
        Transfer.lamports = [max 1 (5000 * 1000 / 10000)]) := by
  refine ⟨by decide, ?_⟩
  exact (c2_publishLike_fee_split 1000 5000 (by decide)).1

/-- Helper: running the probe loop over a candidate order in which every
endpoint before `succ` is eligible but fails its probe, and `succ` is
eligible and succeeds, picks `succ` and penalizes exactly the failed
prefix. -/
theorem pickLoop_fail_prefix (probe : String → Bool) (now : Nat)
    (fails rest : List Ep) (succ : Ep)
    (hf : ∀ e ∈ fails, e.cooldownUntil ≤ now ∧ probe e.url = false)
    (hs : succ.cooldownUntil ≤ now) (hp : probe succ.url = true) :
    pickLoop probe now (fails ++ succ :: rest)
      = (some succ.url, fails.map (probeFail now) ++ succ :: rest) := by
  induction fails with
  | nil => simp [pickLoop, Nat.not_lt.mpr hs, hp]
  | cons e fs ih =>
    have he := hf e (List.mem_cons_self e fs)
    have hfs : ∀ x ∈ fs, x.cooldownUntil ≤ now ∧ probe x.url = false :=
      fun x hx => hf x (List.mem_cons_of_mem e hx)
    simp [pickLoop, Nat.not_lt.mpr he.1, he.2, ih hfs]

/-- C3: with no cached connection, if the cooldown-sorted pool starts with
eligible endpoints 1..N-1 whose probes fail followed by an eligible
endpoint N whose probe succeeds, `pickConn` returns endpoint N, and each of
endpoints 1..N-1 ends with its failScore incremented and with
`cooldownUntil` strictly greater than the current time. -/
theorem c3_pickConn_first_healthy (probe : String → Bool) (now : Nat)
    (pool fails rest : List Ep) (succ : Ep)
    (hsort : sortPool pool = fails ++ succ :: rest)
    (hf : ∀ e ∈ fails, e.cooldownUntil ≤ now ∧ probe e.url = false)
    (hs : succ.cooldownUntil ≤ now) (hp : probe succ.url = true) :
    pickConn probe now none pool
      = (some succ.url, fails.map (probeFail now) ++ succ :: rest)
    ∧ ∀ e ∈ fails, now < (probeFail now e).cooldownUntil
        ∧ (probeFail now e).failScore = e.failScore + 1 := by
  refine ⟨?_, ?_⟩
  · show pickLoop probe now (sortPool pool) = _
    rw [hsort]
    exact pickLoop_fail_prefix probe now fails rest succ hf hs hp
  · intro e _
    refine ⟨?_, rfl⟩
    show now < now + min 30000 (3000 * (e.failScore + 1))
    omega

/-- Witness for C3: a two-endpoint pool where the first probe fails and the
second succeeds. -/
theorem c3_witness :
    pickConn (fun u => u == "b") 1000 none [⟨"a", 0, 0⟩, ⟨"b", 0, 0⟩]
      = (some "b", [⟨"a", 4000, 1⟩, ⟨"b", 0, 0⟩]) := by
  have h := (c3_pickConn_first_healthy (fun u => u == "b") 1000
    [⟨"a", 0, 0⟩, ⟨"b", 0, 0⟩] [⟨"a", 0, 0⟩] [] ⟨"b", 0, 0⟩
    (by decide) (by decide) (by decide) (by decide)).1
  exact h.trans (by decide)

/-- Helper: the first entry of a cooldown trace is the current cooldown. -/
theorem cooldownTrace_head (e : Ep) (evs : List FailEvent) :
    (cooldownTrace e evs).head? = some e.cooldownUntil := by
  cases evs <;> rfl

/-- C4: along any admissible sequence of failure penalizations of one
endpoint (probe failures and/or backoff penalizations), `cooldownUntil`
never decreases from one failure to the next, and every penalization sets
`cooldownUntil` at most a fixed ceiling (60 s) beyond the failure time. -/
theorem c4_cooldown_monotone (e : Ep) (evs : List FailEvent) (h : Admissible e evs) :
    List.Chain' (· ≤ ·) (cooldownTrace e evs)
    ∧ ∀ (e' : Ep) (ev : FailEvent),
        (applyFail e' ev).cooldownUntil ≤ ev.time + 60000 := by
  constructor
  · induction evs generalizing e with
    | nil => simp [cooldownTrace]
    | cons ev rest ih =>
      obtain ⟨h1, h2⟩ := h
      have hd : e.cooldownUntil ≤ (applyFail e ev).cooldownUntil := by
        cases ev with
        | probe t =>
          simp only [applyFail, probeFail, FailEvent.time] at h1 ⊢
          omega
        | back t a =>
          simp only [applyFail, backoffPenalize, FailEvent.time] at h1 ⊢
          omega
      rw [cooldownTrace, List.chain'_cons']
      refine ⟨?_, ih (applyFail e ev) h2⟩
      intro b hb
      rw [cooldownTrace_head] at hb
      simp only [Option.mem_some_iff] at hb
      exact hb ▸ hd
  · intro e' ev
    cases ev with
    | probe t =>
      simp only [applyFail, probeFail, FailEvent.time]
      omega
    | back t a =>
      simp only [applyFail, backoffPenalize, FailEvent.time]
      omega

/-- Witness for C4: a probe failure at time 0 followed by a backoff
penalization at time 5000 is admissible, and the cooldown trace is
monotone. -/
theorem c4_witness :
    Admissible ⟨"u", 0, 0⟩ [.probe 0, .back 5000 0]
    ∧ List.Chain' (· ≤ ·) (cooldownTrace ⟨"u", 0, 0⟩ [.probe 0, .back 5000 0]) := by
  have adm : Admissible ⟨"u", 0, 0⟩ [.probe 0, .back 5000 0] :=
    ⟨by decide, by decide, trivial⟩
  exact ⟨adm, (c4_cooldown_monotone _ _ adm).1⟩

/-- Helper: slicing a string at or beyond its length is the identity. -/
theorem jsSlice_of_le (s : String) (n : Nat) (h : s.length ≤ n) : jsSlice s n = s := by
  cases s with
  | mk data =>
    simp only [String.length] at h
    simp [jsSlice, List.take_of_length_le h]

/-- Helper: slicing twice at the same bound is slicing once. -/
theorem jsSlice_jsSlice (s : String) (n : Nat) : jsSlice (jsSlice s n) n = jsSlice s n := by
  simp [jsSlice, List.take_take]

/-- Helper: the validation accepts every encoded payload, and decoding
returns the encoded object unchanged. -/
theorem tryParse_encode (p : PublishPayload) :
    tryParsePayloadJ (some (encodePayload p)) = some (encodePayload p) := rfl

/-- Helper: the encoded object is the JSON form of the truncated payload. -/
theorem encode_eq_toJson_truncate (p : PublishPayload) :
    encodePayload p = toJson (truncatePayload p) := rfl

/-- Helper: truncation is the identity on payloads within the caps whose
watermark is present. -/
theorem truncate_of_withinCaps (p : PublishPayload) (hcaps : withinCaps p = true)
    (hwm : p.wm ≠ none) : truncatePayload p = p := by
  cases p with
  | mk k l wm c =>
    simp only [withinCaps, Bool.and_eq_true, decide_eq_true_eq, List.all_eq_true] at hcaps
    obtain ⟨⟨⟨⟨hk, hl6⟩, hl⟩, hwm64⟩, hc⟩ := hcaps
    cases wm with
    | none => exact absurd rfl hwm
    | some w =>
      simp only [truncatePayload, Option.getD_some, PublishPayload.mk.injEq]
      refine ⟨jsSlice_of_le k 64 hk, ?_, congrArg some (jsSlice_of_le w 64 hwm64),
        jsSlice_of_le c 64 hc⟩
      have hmap : l.map (fun s => jsSlice s 140) = l := by
        have h1 : l.map (fun s => jsSlice s 140) = l.map id :=
          List.map_congr_left fun s hs => jsSlice_of_le s 140 (hl s hs)
        rw [h1, List.map_id]
      rw [hmap, List.take_of_length_le hl6]

/-- C5 counterexample: the payload `{k:"k0", l:[], wm:undefined, c:"c0"}`
is within every cap, yet decoding its encoding does not return it: the
encoder materializes `wm: ""`, so the decoded object has a sixth field the
original lacks. -/
theorem c5_counterexample :
    withinCaps ⟨"k0", [], none, "c0"⟩ = true
    ∧ tryParsePayloadJ (some (encodePayload ⟨"k0", [], none, "c0"⟩))
        ≠ some (toJson ⟨"k0", [], none, "c0"⟩) := by
  refine ⟨by decide, ?_⟩
  intro h
  have h2 := congrArg (Option.map objArity) h
  exact absurd h2 (by decide)

/-- C5 (amended): encoding truncates every field to its cap; decoding an
encoded event returns exactly the truncated event (with the watermark
defaulted to `""`); hence events within the caps **whose watermark is
present** round-trip unchanged, and truncation is idempotent. -/
theorem c5_roundtrip_truncation :
    (∀ p : PublishPayload, withinCaps p = true → p.wm ≠ none →
      tryParsePayloadJ (some (encodePayload p)) = some (toJson p))
    ∧ (∀ p : PublishPayload,
      tryParsePayloadJ (some (encodePayload p)) = some (toJson (truncatePayload p)))
    ∧ (∀ p : PublishPayload, truncatePayload (truncatePayload p) = truncatePayload p) := by
  refine ⟨?_, ?_, ?_⟩
  · intro p hcaps hwm
    rw [tryParse_encode, encode_eq_toJson_truncate, truncate_of_withinCaps p hcaps hwm]
  · intro p
    rw [tryParse_encode, encode_eq_toJson_truncate]
  · intro p
    cases p with
    | mk k l wm c =>
      simp only [truncatePayload, Option.getD_some, PublishPayload.mk.injEq]
      refine ⟨jsSlice_jsSlice k 64, ?_, congrArg some (jsSlice_jsSlice _ 64),
        jsSlice_jsSlice c 64⟩
      rw [List.map_take, List.take_take, Nat.min_self, List.map_map]
      exact congrArg (List.take 6) (List.map_congr_left (fun s _ => jsSlice_jsSlice s 140))

/-- Witness for C5 (amended) at a concrete in-caps payload with a present
watermark. -/
theorem c5_witness :
    withinCaps ⟨"k0", ["gm"], some "w", "c0"⟩ = true
    ∧ tryParsePayloadJ (some (encodePayload ⟨"k0", ["gm"], some "w", "c0"⟩))
        = some (toJson ⟨"k0", ["gm"], some "w", "c0"⟩) :=
  ⟨by decide, c5_roundtrip_truncation.1 ⟨"k0", ["gm"], some "w", "c0"⟩ (by decide) (by simp)⟩

/-- C6: decoding is total (a thrown `JSON.parse` error is absorbed, `none`
is returned instead) and a non-`none` result is returned only for values
passing the schema validation (`v === 1`, `t === "api"`, string key,
array of lines). -/
theorem c6_decode_never_throws (jsonParse : String → Option JVal) (s : String) :
    tryParsePayload jsonParse s = none
    ∨ ∃ j, tryParsePayload jsonParse s = some j ∧ isValidPublish j = true := by
  unfold tryParsePayload tryParsePayloadJ
  cases jsonParse s with
  | none => exact Or.inl rfl
  | some j =>
    cases hv : isValidPublish j with
    | true => exact Or.inr ⟨j, by simp [hv], hv⟩
    | false => exact Or.inl (by simp [hv])

/-- C7 counterexample: a manifest whose `registries` array repeats an entry
is returned with the repetition intact — `getActiveRegistries` does not
deduplicate at read time (deduplication only happens when the owner
publishes a manifest). -/
theorem c7_counterexample :
    getActiveRegistries (fun _ => true) "OWNER" 8
        (loadLatestRegistryManifest "registry.v1"
          [some ⟨some (manifestJson "registry.v1" "O" [.jstr "A", .jstr "A"] 100), 100⟩])
      = ["A", "A"]
    ∧ ¬ (["A", "A"] : List String).Nodup := by
  exact ⟨rfl, by decide⟩

/-- C7 (amended): with no explicit registry configured, the resolver keeps
the valid manifest (matching tag, non-empty registries array) with the
highest transaction timestamp, skipping failed fetches, unparseable memos
and mismatched tags; its registries are returned in order with non-string
or unparseable entries skipped and capped at `MAX_REGISTRIES ≤ 8`, without
read-time deduplication.  In particular two manifests tagged "registry.v1"
at timestamps [100, 200] with registries [["A"], ["A","B"]] resolve to
["A", "B"]. -/
theorem c7_latest_manifest_registries :
    getActiveRegistries (fun _ => true) "OWNER" (MAX_REGISTRIES 4)
        (loadLatestRegistryManifest "registry.v1"
          [some ⟨some (manifestJson "registry.v1" "O" [.jstr "A"] 100), 100⟩,
           some ⟨some (manifestJson "registry.v1" "O" [.jstr "A", .jstr "B"] 200), 200⟩])
      = ["A", "B"]
    ∧ getActiveRegistries (fun s => s != "BAD") "OWNER" (MAX_REGISTRIES 4)
        (loadLatestRegistryManifest "registry.v1"
          [none,
           some ⟨none, 300⟩,
           some ⟨some (manifestJson "other.tag" "O" [.jstr "Z"] 400), 400⟩,
           some ⟨some (manifestJson "registry.v1" "O" [] 500), 500⟩,
           some ⟨some (manifestJson "registry.v1" "O"
             [.jstr "A", .jnum 7, .jstr "BAD", .jstr "B"] 200), 200⟩])
      = ["A", "B"]
    ∧ ∀ (validPk : String → Bool) (fallback : String) (cfg : Nat)
        (manifest : Option JVal),
        (getActiveRegistries validPk fallback (MAX_REGISTRIES cfg) manifest).length ≤ 8 := by
  refine ⟨rfl, rfl, ?_⟩
  intro validPk fallback cfg manifest
  simp only [getActiveRegistries]
  refine le_trans (List.length_take_le _ _) ?_
  unfold MAX_REGISTRIES
  omega

/-- Helper: when every attempt observes a successful `pickConn` and a
rate-limited status query, the poll loop runs out its attempt budget and
ends `exhausted` without an exception. -/
theorem confirmGo_exhausted (env : Nat → AttemptEnv)
    (h : ∀ i, (env i).status = SigStatus.rateLimited ∧ (env i).pick.isSome = true) :
    ∀ (fuel idx : Nat) (tried : List String),
      confirmGo env idx fuel tried = .ok .exhausted := by
  intro fuel
  induction fuel with
  | zero => intro idx tried; rfl
  | succ r ih =>
    intro idx tried
    obtain ⟨hs, hp⟩ := h idx
    cases hep : (env idx).pick with
    | none => rw [hep] at hp; simp at hp
    | some ep =>
      simp only [confirmGo, hep]
      split
      · exact ih (idx + 1) tried
      · rw [hs]
        exact ih (idx + 1) (ep :: tried)

/-- C9: whatever the confirmation polling does — confirms, exhausts its
six attempts, or throws from `pickConn` — `publishMemeApi` and
`publishLike` return exactly the signature obtained at submission; and
when every attempt is rate-limited the poller ends `exhausted` rather than
raising. -/
theorem c9_publish_returns_signature (sig : String) (env : Nat → AttemptEnv) :
    publishMemeApiReturn sig env = sig
    ∧ publishLikeReturn sig env = sig
    ∧ ((∀ i, (env i).status = SigStatus.rateLimited ∧ (env i).pick.isSome = true) →
        confirmSignatureSmart env = .ok .exhausted) := by
  refine ⟨?_, ?_, ?_⟩
  · cases h : confirmSignatureSmart env <;> simp [publishMemeApiReturn, h]
  · cases h : confirmSignatureSmart env <;> simp [publishLikeReturn, h]
  · intro hall
    exact confirmGo_exhausted env hall 6 1 []

/-- Helper: membership in a stable insertion. -/
theorem mem_insertBySlot {x r : SigInfo} {l : List SigInfo} :
    x ∈ insertBySlot r l ↔ x = r ∨ x ∈ l := by
  induction l with
  | nil => simp [insertBySlot]
  | cons h t ih =>
    simp only [insertBySlot]
    split
    · simp only [List.mem_cons, ih]
      tauto
    · simp [List.mem_cons]

/-- Helper: membership is preserved by the slot sort. -/
theorem mem_sortBySlotDesc {x : SigInfo} {l : List SigInfo} :
    x ∈ sortBySlotDesc l ↔ x ∈ l := by
  induction l with
  | nil => simp [sortBySlotDesc]
  | cons h t ih =>
    show x ∈ insertBySlot h (sortBySlotDesc t) ↔ _
    rw [mem_insertBySlot, ih]
    simp [List.mem_cons, eq_comm]

/-- Helper: insertion adds one element. -/
theorem length_insertBySlot (r : SigInfo) (l : List SigInfo) :
    (insertBySlot r l).length = l.length + 1 := by
  induction l with
  | nil => rfl
  | cons h t ih =>
    simp only [insertBySlot]
    split
    · simp [ih]
    · simp

/-- Helper: sorting preserves length. -/
theorem length_sortBySlotDesc (l : List SigInfo) :
    (sortBySlotDesc l).length = l.length := by
  induction l with
  | nil => rfl
  | cons h t ih =>
    show (insertBySlot h (sortBySlotDesc t)).length = _
    rw [length_insertBySlot, ih, List.length_cons]

/-- Helper: a list already sorted newest-first (slots strictly decreasing)
is left unchanged by the stable sort. -/
theorem sortBySlotDesc_eq_self (l : List SigInfo)
    (h : List.Chain' (fun a b => b.slot < a.slot) l) : sortBySlotDesc l = l := by
  induction l with
  | nil => rfl
  | cons x xs ih =>
    show insertBySlot x (sortBySlotDesc xs) = x :: xs
    rw [ih h.tail]
    cases xs with
    | nil => rfl
    | cons y ys =>
      have hxy : y.slot < x.slot := (List.chain'_cons.mp h).1
      simp [insertBySlot, Nat.not_lt.mpr (Nat.le_of_lt hxy), Nat.lt_asymm hxy]

/-- Helper: the dedupe loop only keeps elements of its input. -/
theorem mem_dedupSigsGo {x : SigInfo} {seen : List String} {l : List SigInfo} :
    x ∈ dedupSigsGo seen l → x ∈ l := by
  induction l generalizing seen with
  | nil => simp [dedupSigsGo]
  | cons y ys ih =>
    simp only [dedupSigsGo]
    split
    · intro hx
      exact List.mem_cons_of_mem y (ih hx)
    · intro hx
      rcases List.mem_cons.mp hx with h1 | h1
      · exact h1 ▸ List.mem_cons_self y ys
      · exact List.mem_cons_of_mem y (ih h1)

/-- Helper: the dedupe loop is the identity on a signature-nodup list none
of whose signatures were seen before. -/
theorem dedupSigsGo_eq_self (l : List SigInfo) (seen : List String)
    (hnd : (l.map SigInfo.sig).Nodup)
    (hseen : ∀ x ∈ l, seen.contains x.sig = false) :
    dedupSigsGo seen l = l := by
  induction l generalizing seen with
  | nil => rfl
  | cons x xs ih =>
    have hx := hseen x (List.mem_cons_self x xs)
    have hnd0 : (x.sig :: xs.map SigInfo.sig).Nodup := by simpa using hnd
    have hnd' := (List.nodup_cons.mp hnd0).2
    have hxs : x.sig ∉ xs.map SigInfo.sig := (List.nodup_cons.mp hnd0).1
    simp only [dedupSigsGo, hx, Bool.false_eq_true, if_false]
    rw [ih (x.sig :: seen) hnd']
    intro y hy
    simp only [List.contains_cons, Bool.or_eq_false_iff]
    refine ⟨?_, hseen y (List.mem_cons_of_mem x hy)⟩
    simp only [beq_eq_false_iff_ne, ne_eq]
    intro he
    exact hxs (he ▸ List.mem_map_of_mem SigInfo.sig hy)

/-- Helper: on a signature-nodup list, dropping while the signature differs
from that of the `i`-th entry drops exactly the first `i` entries. -/
theorem dropWhile_ne_get (l : List SigInfo) (i : Nat) (h : i < l.length)
    (hnd : (l.map SigInfo.sig).Nodup) :
    l.dropWhile (fun x => x.sig != (l.get ⟨i, h⟩).sig) = l.drop i := by
  induction l generalizing i with
  | nil => simp at h
  | cons a t ih =>
    cases i with
    | zero =>
      have ha : (fun x : SigInfo => x.sig != ((a :: t).get ⟨0, h⟩).sig) a = false := by
        simp [List.get]
      simp [List.dropWhile, ha]
    | succ j =>
      have hj : j < t.length := by simpa using h
      have hnd0 : (a.sig :: t.map SigInfo.sig).Nodup := by simpa using hnd
      have hnd2 := List.nodup_cons.mp hnd0
      have hane : a.sig ∉ t.map SigInfo.sig := hnd2.1
      have hne : a.sig ≠ (t.get ⟨j, hj⟩).sig := by
        intro he
        exact hane (he ▸ List.mem_map_of_mem SigInfo.sig (t.get_mem j hj))
      have hgs : (a :: t).get ⟨j + 1, h⟩ = t.get ⟨j, hj⟩ := rfl
      have ha : (a.sig != ((a :: t).get ⟨j + 1, h⟩).sig) = true := by
        rw [hgs]
        simpa using hne
      rw [List.dropWhile_cons]
      simp only [ha, if_true]
      rw [List.drop_succ_cons]
      have hrec := ih j hj hnd2.2
      simpa [hgs] using hrec

/-- Helper: every item of a built page comes from the top-`limit` slice of
the deduplicated sorted signature window. -/
theorem buildPage_items_mem {history : List SigInfo} {txMemo : String → Option JVal}
    {limit : Nat} {cursor : Option String} {r : SigInfo}
    (hr : r ∈ (buildPage history txMemo limit cursor).items) :
    r ∈ (dedupSigs (sortBySlotDesc
      (getSignaturesForAddress history cursor (max 4 limit)))).take limit := by
  simp only [buildPage] at hr
  split at hr
  · simp at hr
  · have h1 := mem_sortBySlotDesc.mp hr
    exact List.mem_of_mem_filter h1

/-- Helper: the shape of a page built from a non-empty signature window. -/
theorem buildPage_eq (history : List SigInfo) (txMemo : String → Option JVal)
    (limit : Nat) (cursor : Option String)
    (hne : (getSignaturesForAddress history cursor (max 4 limit)).isEmpty = false) :
    buildPage history txMemo limit cursor =
      ⟨sortBySlotDesc
          (((dedupSigs (sortBySlotDesc
              (getSignaturesForAddress history cursor (max 4 limit)))).take limit).filter
            (fun r => isApiMemo (txMemo r.sig))),
        match ((dedupSigs (sortBySlotDesc
            (getSignaturesForAddress history cursor (max 4 limit)))).take limit).getLast? with
        | some r => some r.sig
        | none => cursor⟩ := by
  simp only [buildPage, hne, Bool.false_eq_true, if_false]

/-- C8: starting from an empty cursor on a registry whose history is
newest-first with distinct signatures and at least `2 × limit` entries,
the items of two consecutive `buildPage` calls — the second using the
cursor returned by the first — share no transaction signature. -/
theorem c8_consecutive_pages_disjoint (history : List SigInfo)
    (txMemo : String → Option JVal) (limit : Nat)
    (hnd : (history.map SigInfo.sig).Nodup)
    (hdesc : List.Chain' (fun a b => b.slot < a.slot) history)
    (hlen : 2 * limit ≤ history.length) (hpos : 1 ≤ limit) :
    ∀ r ∈ (buildPage history txMemo limit none).items,
      ∀ r' ∈ (buildPage history txMemo limit
          (buildPage history txMemo limit none).nextCursor).items,
        r.sig ≠ r'.sig := by
  have hlim : limit ≤ max 4 limit := le_max_right 4 limit
  have hlt : limit - 1 < history.length := by omega
  have hmerged1 : getSignaturesForAddress history none (max 4 limit)
      = history.take (max 4 limit) := rfl
  have hchain1 : List.Chain' (fun a b => b.slot < a.slot) (history.take (max 4 limit)) :=
    hdesc.prefix (List.take_prefix _ _)
  have hsort1 : sortBySlotDesc (history.take (max 4 limit)) = history.take (max 4 limit) :=
    sortBySlotDesc_eq_self _ hchain1
  have hnd1 : ((history.take (max 4 limit)).map SigInfo.sig).Nodup := by
    rw [List.map_take]
    exact List.Nodup.sublist (List.take_sublist _ _) hnd
  have hdedup1 : dedupSigs (history.take (max 4 limit)) = history.take (max 4 limit) :=
    dedupSigsGo_eq_self _ [] hnd1 (fun x _ => rfl)
  have hsel1 : (dedupSigs (sortBySlotDesc
      (getSignaturesForAddress history none (max 4 limit)))).take limit
      = history.take limit := by
    rw [hmerged1, hsort1, hdedup1, List.take_take, Nat.min_eq_left hlim]
  have hitems1 : ∀ r ∈ (buildPage history txMemo limit none).items,
      r ∈ history.take limit := by
    intro r hr
    have h1 := buildPage_items_mem hr
    rwa [hsel1] at h1
  have hlen1 : (history.take limit).length = limit := by
    rw [List.length_take]
    omega
  have hne1 : (getSignaturesForAddress history none (max 4 limit)).isEmpty = false := by
    rw [hmerged1]
    have hlen2 : (history.take (max 4 limit)).length = min (max 4 limit) history.length :=
      List.length_take _ _
    cases hE : history.take (max 4 limit) with
    | nil =>
      exfalso
      rw [hE] at hlen2
      simp only [List.length_nil] at hlen2
      omega
    | cons a t => rfl
  have hgl : (history.take limit).getLast? = some (history.get ⟨limit - 1, hlt⟩) := by
    rw [List.getLast?_eq_getElem?, hlen1, List.getElem?_take,
      if_pos (by omega : limit - 1 < limit), List.getElem?_eq_getElem hlt]
    rfl
  have hcur1 : (buildPage history txMemo limit none).nextCursor
      = some (history.get ⟨limit - 1, hlt⟩).sig := by
    rw [buildPage_eq history txMemo limit none hne1]
    simp only [hsel1, hgl]
  have hmerged2 : getSignaturesForAddress history
      (some (history.get ⟨limit - 1, hlt⟩).sig) (max 4 limit)
      = (history.drop limit).take (max 4 limit) := by
    show ((history.dropWhile
      (fun x => x.sig != (history.get ⟨limit - 1, hlt⟩).sig)).drop 1).take (max 4 limit) = _
    rw [dropWhile_ne_get history (limit - 1) hlt hnd, List.drop_drop,
      (by omega : limit - 1 + 1 = limit)]
  have hitems2 : ∀ r' ∈ (buildPage history txMemo limit
      (some (history.get ⟨limit - 1, hlt⟩).sig)).items, r' ∈ history.drop limit := by
    intro r' hr'
    have h2 := buildPage_items_mem hr'
    have h3 := mem_dedupSigsGo (List.mem_of_mem_take h2)
    have h4 := mem_sortBySlotDesc.mp h3
    rw [hmerged2] at h4
    exact List.mem_of_mem_take h4
  have hdisj : ∀ r ∈ history.take limit, ∀ r' ∈ history.drop limit, r.sig ≠ r'.sig := by
    intro r hr r' hr' he
    have h1 : r.sig ∈ (history.take limit).map SigInfo.sig := List.mem_map_of_mem _ hr
    have h2 : r'.sig ∈ (history.drop limit).map SigInfo.sig := List.mem_map_of_mem _ hr'
    have hsplit : history.map SigInfo.sig
        = (history.take limit).map SigInfo.sig ++ (history.drop limit).map SigInfo.sig := by
      rw [← List.map_append, List.take_append_drop]
    rw [hsplit] at hnd
    exact (List.nodup_append.mp hnd).2.2 h1 (he ▸ h2)
  intro r hr r' hr'
  rw [hcur1] at hr'
  exact hdisj r (hitems1 r hr) r' (hitems2 r' hr')

/-- Witness for C8: a four-entry history, page size 2. -/
theorem c8_witness :
    ((([⟨"s1", 10⟩, ⟨"s2", 9⟩, ⟨"s3", 8⟩, ⟨"s4", 7⟩] : List SigInfo).map
        SigInfo.sig).Nodup
    ∧ 2 * 2 ≤ ([⟨"s1", 10⟩, ⟨"s2", 9⟩, ⟨"s3", 8⟩, ⟨"s4", 7⟩] : List SigInfo).length)
    ∧ ∀ r ∈ (buildPage [⟨"s1", 10⟩, ⟨"s2", 9⟩, ⟨"s3", 8⟩, ⟨"s4", 7⟩]
          (fun _ => some (.jobj [("t", .jstr "api"), ("k", .jstr "k"), ("l", .jarr [])]))
          2 none).items,
        ∀ r' ∈ (buildPage [⟨"s1", 10⟩, ⟨"s2", 9⟩, ⟨"s3", 8⟩, ⟨"s4", 7⟩]
            (fun _ => some (.jobj [("t", .jstr "api"), ("k", .jstr "k"), ("l", .jarr [])]))
            2 (buildPage [⟨"s1", 10⟩, ⟨"s2", 9⟩, ⟨"s3", 8⟩, ⟨"s4", 7⟩]
              (fun _ => some (.jobj [("t", .jstr "api"), ("k", .jstr "k"), ("l", .jarr [])]))
              2 none).nextCursor).items,
          r.sig ≠ r'.sig := by
  refine ⟨⟨by decide, by decide⟩, ?_⟩
  exact c8_consecutive_pages_disjoint
    [⟨"s1", 10⟩, ⟨"s2", 9⟩, ⟨"s3", 8⟩, ⟨"s4", 7⟩]
    (fun _ => some (.jobj [("t", .jstr "api"), ("k", .jstr "k"), ("l", .jarr [])]))
    2 (by decide) (by simp [List.chain'_cons]) (by decide) (by decide)

/-- C10 counterexample: in the 50-item variant a non-numeric `limit` is not
treated as the default 12 — `Number("abc")` is `NaN`, the clamp keeps it
`NaN`, and `slice(0, NaN)` returns 0 items, unlike the 12 returned for a
missing limit. -/
theorem c10_counterexample :
    fetchMemesItems ["a", "b", "c", "d", "e", "f", "g", "h", "i", "j", "k", "l", "m"]
        (some "abc") = []
    ∧ fetchMemesItems ["a", "b", "c", "d", "e", "f", "g", "h", "i", "j", "k", "l", "m"]
        none = ["a", "b", "c", "d", "e", "f", "g", "h", "i", "j", "k", "l"]
    ∧ effLimit50 (some "abc") = none := by
  exact ⟨rfl, rfl, rfl⟩

/-- C10 (amended): both serverless feed variants clamp a numeric requested
limit into [1, max] (max 50 in one variant, 32 in the other) and return at
most that many items, and a missing (or empty) limit defaults to 12; a
non-numeric limit defaults to 12 only in the 32-variant, while the
50-variant propagates `NaN` and returns 0 items. -/
theorem c10_limit_clamped :
    (∀ (merged : List String) (q : Option String),
        (fetchMemesItems merged q).length ≤ (effLimit50 q).getD 0)
    ∧ effLimit50 none = some 12
    ∧ (∀ s n, jsToNumber s = some n → effLimit50 (some s) = some (max 1 (min 50 n)))
    ∧ (∀ s, s ≠ "" → jsToNumber s = none → effLimit50 (some s) = none)
    ∧ effLimit32 none = 12
    ∧ (∀ q, 1 ≤ effLimit32 q ∧ effLimit32 q ≤ 32)
    ∧ (∀ s, s ≠ "" → parseIntJs s = none → effLimit32 (some s) = 12)
    ∧ (∀ (history : List SigInfo) (txMemo : String → Option JVal) (limit : Nat)
        (cursor : Option String),
        (buildPage history txMemo limit cursor).items.length ≤ limit) := by
  refine ⟨?_, rfl, ?_, ?_, rfl, ?_, ?_, ?_⟩
  · intro merged q
    unfold fetchMemesItems
    cases h : effLimit50 q with
    | none => simp
    | some n =>
      simp only [Option.getD_some]
      exact List.length_take_le n merged
  · intro s n h
    have hs : s ≠ "" := by
      intro he
      subst he
      simp [jsToNumber] at h
    simp [effLimit50, hs, h]
  · intro s hs h
    simp [effLimit50, hs, h]
  · intro q
    constructor
    · simp only [effLimit32]
      exact le_max_left 1 _
    · simp only [effLimit32]
      exact max_le (by norm_num) (min_le_left _ _)
  · intro s hs h
    simp [effLimit32, hs, h]
  · intro history txMemo limit cursor
    simp only [buildPage]
    split
    · simp
    · rw [length_sortBySlotDesc]
      exact le_trans (List.length_filter_le _ _) (List.length_take_le _ _)

/-- Witness for C10 (amended) at the numeric limit "15". -/
theorem c10_witness : effLimit50 (some "15") = some (max 1 (min 50 15)) :=
  c10_limit_clamped.2.2.1 "15" 15 rfl

/-- Witness for C9: a single-endpoint environment that is rate-limited on
every attempt. -/
theorem c9_witness :
    publishLikeReturn "sig0" (fun _ => ⟨some "e", SigStatus.rateLimited⟩) = "sig0"
    ∧ confirmSignatureSmart (fun _ => ⟨some "e", SigStatus.rateLimited⟩) = .ok .exhausted := by
  have h := c9_publish_returns_signature "sig0" (fun _ => ⟨some "e", SigStatus.rateLimited⟩)
  exact ⟨h.2.1, h.2.2 (fun _ => ⟨rfl, rfl⟩)⟩

end Stonky
